import Mathlib

/-!
# Banking-Management-System: the customer ledger and its persistence codec

A shallow embedding of `bank-final.cpp`.

Modelling conventions.
* `double` amounts (`balance`, `dailyTransactionTotal`, `dailyTransactionLimit`, every
  `amount`) are exact rationals: rounding, infinities and NaN are not modelled.
* `time_t` is an integer; `time(nullptr)` is an input `now` of the operation that reads the
  clock; `localtime(&t)->tm_yday` is a parameter `tm_yday` of the operations that call it.
* `std::string` is `String`; a stream is the list of characters still to be read.
* A member function that can throw returns the record it leaves behind together with the
  exception, if any: C++ does not roll back what was written before the `throw`.
-/

namespace Banking

/-- The exceptions thrown by the ledger, one constructor per `throw` in the source. -/
inductive BankError where
  | invalidDeposit      -- invalid_argument("Deposit must be > 0.")
  | invalidWithdrawal   -- runtime_error("Invalid withdrawal amount.")
  | limitExceeded       -- runtime_error("Daily transaction limit exceeded.")
  | underage            -- runtime_error("Customer must be at least 18 years old.")
  | minimumDeposit      -- runtime_error("Minimum deposit is Rs500.")
deriving DecidableEq, Repr

/-- The data members of `class Customer`, the inherited `Person` members first. -/
structure Customer where
  name : String
  contact : String
  age : Int
  customerID : String
  password : String
  balance : ℚ
  dailyTransactionTotal : ℚ
  dailyTransactionLimit : ℚ
  lastTransactionDate : Int
deriving DecidableEq, Repr

/-- The largest value of a C++ `int`. -/
def INT_MAX : Int := 2147483647

/-- The smallest value of a C++ `int`. -/
def INT_MIN : Int := -2147483648

/-- A mathematical integer brought back into the range of a 32-bit two's-complement `int`. -/
def wrapInt (x : Int) : Int := (x + 2147483648) % 4294967296 - 2147483648

/-- The constructor `Customer::Customer(n, a, c, pwd, initBal)`, run when the static
`idCounter` holds `idCounter` and the clock reads `now`. It returns the new record and the
new value of the static counter (`++idCounter`, wrapping as 32-bit hardware does). -/
def Customer.construct (idCounter : Int) (now : Int) (n : String) (a : Int) (c : String)
    (pwd : String) (initBal : ℚ) : Customer × Int :=
  let counter := wrapInt (idCounter + 1)
  ({ name := n, contact := c, age := a,
     customerID := toString counter, password := pwd,
     balance := initBal, dailyTransactionTotal := 0, dailyTransactionLimit := 5000,
     lastTransactionDate := now }, counter)

/-- The member `Customer::deposit(amount)`. -/
def Customer.deposit (amount : ℚ) (c : Customer) : Customer × Option BankError :=
  if amount ≤ 0 then (c, some BankError.invalidDeposit)
  else ({ c with balance := c.balance + amount }, none)

/-- The member `Customer::resetDailyLimit()`, with `now` the value `time(nullptr)` returns. -/
def Customer.resetDailyLimit (tm_yday : Int → Int) (now : Int) (c : Customer) : Customer :=
  if tm_yday now ≠ tm_yday c.lastTransactionDate then
    { c with dailyTransactionTotal := 0, lastTransactionDate := now }
  else c

/-- The member `Customer::withdraw(amount)`, with `now` the clock reading of its call to
`resetDailyLimit`. -/
def Customer.withdraw (tm_yday : Int → Int) (now : Int) (amount : ℚ) (c : Customer) :
    Customer × Option BankError :=
  if amount ≤ 0 ∨ amount > c.balance then (c, some BankError.invalidWithdrawal)
  else
    let c1 := c.resetDailyLimit tm_yday now
    if c1.dailyTransactionTotal + amount > c1.dailyTransactionLimit then
      (c1, some BankError.limitExceeded)
    else
      ({ c1 with balance := c1.balance - amount,
                 dailyTransactionTotal := c1.dailyTransactionTotal + amount }, none)

/-- The member `Customer::verifyPassword(pwd)`. -/
def Customer.verifyPassword (pwd : String) (c : Customer) : Bool := c.password == pwd

/-- The member `Customer::getCustomerID()`. -/
def Customer.getCustomerID (c : Customer) : String := c.customerID

/-- One call on a customer record: `deposit(amount)`, or `withdraw(amount)` at clock `now`. -/
inductive Call where
  | deposit (amount : ℚ)
  | withdraw (now : Int) (amount : ℚ)
deriving DecidableEq, Repr

/-- The effect of one call on the record, the exception dropped. -/
def Customer.call (tm_yday : Int → Int) (c : Customer) : Call → Customer
  | Call.deposit amount => (c.deposit amount).1
  | Call.withdraw now amount => (c.withdraw tm_yday now amount).1

/-- The record after a sequence of calls, each run to its end (return or throw). -/
def Customer.calls (tm_yday : Int → Int) (c : Customer) (l : List Call) : Customer :=
  l.foldl (Customer.call tm_yday) c

/-- The record after a sequence of `withdraw(amount)` calls, given as `(now, amount)`. -/
def Customer.withdrawals (tm_yday : Int → Int) (c : Customer) (l : List (Int × ℚ)) :
    Customer :=
  l.foldl (fun r p => (r.withdraw tm_yday p.1 p.2).1) c

/-- The largest finite `double`, `(2^53 - 1) * 2^971`. -/
def DBL_MAX : ℚ := (2 ^ 53 - 1) * 2 ^ 971

/-- The function `std::isspace` in the "C" locale. -/
def isspace (ch : Char) : Bool :=
  ch = ' ' || ch = '\t' || ch = '\n' || ch = '\x0b' || ch = '\x0c' || ch = '\r'

/-- The value of a run of decimal digits. -/
def digitsValue (ds : List Char) : Nat :=
  ds.foldl (fun acc ch => 10 * acc + (ch.toNat - 48)) 0

/-- An input stream: the characters not yet read, and the `failbit`. -/
structure IStream where
  buf : List Char
  failbit : Bool
deriving DecidableEq, Repr

/-- The stream `ifstream ifs("customers.txt")` over a file, `none` when there is no file:
opening a missing file sets the `failbit`. -/
def IStream.open : Option (List Char) → IStream
  | some content => { buf := content, failbit := false }
  | none => { buf := [], failbit := true }

/-- The extractor `is >> str` for a `std::string`: nothing happens on a failed stream;
leading white space is skipped; at the end of input the stream fails and `str` keeps its
value; otherwise `str` becomes the run of characters up to the next white space. -/
def IStream.extractString (s : IStream) (old : String) : IStream × String :=
  if s.failbit then (s, old)
  else
    let b := s.buf.dropWhile isspace
    if b = [] then ({ buf := [], failbit := true }, old)
    else ({ buf := b.dropWhile (fun ch => !isspace ch), failbit := false },
          String.mk (b.takeWhile (fun ch => !isspace ch)))

/-- An optional sign in front of a number: whether it is `-`, and what follows it. -/
def readSign : List Char → Bool × List Char
  | '-' :: t => (true, t)
  | '+' :: t => (false, t)
  | b => (false, b)

/-- The extractor `is >> n` for an `int`: white space, an optional sign, decimal digits.
Without a digit the stream fails and `n` is 0; a value outside the range of `int` fails
the stream and stores the nearest bound. -/
def IStream.extractInt (s : IStream) (old : Int) : IStream × Int :=
  if s.failbit then (s, old)
  else
    let b := s.buf.dropWhile isspace
    if b = [] then ({ buf := [], failbit := true }, old)
    else
      let sg := readSign b
      let ds := sg.2.takeWhile Char.isDigit
      let rest := sg.2.dropWhile Char.isDigit
      if ds = [] then ({ buf := rest, failbit := true }, 0)
      else
        let v : Int := if sg.1 then - (digitsValue ds : Int) else (digitsValue ds : Int)
        if v > INT_MAX then ({ buf := rest, failbit := true }, INT_MAX)
        else if v < INT_MIN then ({ buf := rest, failbit := true }, INT_MIN)
        else ({ buf := rest, failbit := false }, v)

/-- The digits after a decimal point, when the input goes on with a point. -/
def readFraction : List Char → List Char × List Char
  | '.' :: t => (t.takeWhile Char.isDigit, t.dropWhile Char.isDigit)
  | b => ([], b)

/-- The exponent of a floating literal, when the input goes on with `e` or `E`: `none`
when no digit follows the `e`, which makes the conversion fail. -/
def readExponent : List Char → Option (Option Int × List Char)
  | 'e' :: t | 'E' :: t =>
    let sg := readSign t
    let ds := sg.2.takeWhile Char.isDigit
    if ds = [] then none
    else some (some (if sg.1 then - (digitsValue ds : Int) else (digitsValue ds : Int)),
               sg.2.dropWhile Char.isDigit)
  | b => some (none, b)

/-- The extractor `is >> x` for a `double`: white space, an optional sign, digits with an
optional point, an optional exponent. A failed conversion stores 0, an overflow the
largest finite value of that sign, and both set the `failbit`. -/
def IStream.extractDouble (s : IStream) (old : ℚ) : IStream × ℚ :=
  if s.failbit then (s, old)
  else
    let b := s.buf.dropWhile isspace
    if b = [] then ({ buf := [], failbit := true }, old)
    else
      let sg := readSign b
      let ip := sg.2.takeWhile Char.isDigit
      let fr := readFraction (sg.2.dropWhile Char.isDigit)
      if ip = [] ∧ fr.1 = [] then ({ buf := fr.2, failbit := true }, 0)
      else
        match readExponent fr.2 with
        | none => ({ buf := fr.2, failbit := true }, 0)
        | some (ex, rest) =>
          let m : ℚ := (digitsValue (ip ++ fr.1) : ℚ) / 10 ^ fr.1.length
          let a : ℚ := m * 10 ^ (ex.getD 0)
          let v : ℚ := if sg.1 then - a else a
          if v > DBL_MAX then ({ buf := rest, failbit := true }, DBL_MAX)
          else if v < - DBL_MAX then ({ buf := rest, failbit := true }, - DBL_MAX)
          else ({ buf := rest, failbit := false }, v)

/-- The fraction `n / d` rounded to the nearest natural number, ties to even. -/
def roundHalfEven (n d : Nat) : Nat :=
  if 2 * (n % d) < d then n / d
  else if d < 2 * (n % d) then n / d + 1
  else if (n / d) % 2 = 0 then n / d else n / d + 1

/-- The number of decimal digits of a natural number. -/
def decimalLength (n : Nat) : Nat := (Nat.toDigits 10 n).length

/-- The decimal exponent `x` of a positive fraction: `10^x ≤ n / d < 10^(x+1)`. -/
def decimalExponent (n d : Nat) : Int :=
  if d ≤ n then (decimalLength (n / d) : Int) - 1
  else - (((List.range (decimalLength d + 1)).find? (fun k => d ≤ n * 10 ^ k)).getD 0 : Int)

/-- The fraction `n / d` scaled to six significant digits, for decimal exponent `x`. -/
def sixDigits (n d : Nat) (x : Int) : Nat :=
  if x ≤ 5 then roundHalfEven (n * 10 ^ (5 - x).toNat) d
  else roundHalfEven n (d * 10 ^ (x - 5).toNat)

/-- A run of digits without its trailing zeros. -/
def stripZeros (l : List Char) : List Char :=
  (l.reverse.dropWhile (fun ch => ch = '0')).reverse

/-- An integer part and a fraction part joined by a point; no point when the fraction
has only zeros. -/
def withPoint (ip fr : List Char) : List Char :=
  if stripZeros fr = [] then ip else ip ++ '.' :: stripZeros fr

/-- The conversion `%g` with precision 6 of the positive fraction `n / d`. -/
def formatG (n d : Nat) : List Char :=
  let x0 := decimalExponent n d
  let m0 := sixDigits n d x0
  let x := if m0 = 1000000 then x0 + 1 else x0
  let ds := Nat.toDigits 10 (if m0 = 1000000 then 100000 else m0)
  if x < -4 ∨ 6 ≤ x then
    withPoint (ds.take 1) (ds.drop 1) ++
      'e' :: (if x < 0 then '-' else '+') ::
        (if x.natAbs < 10 then '0' :: Nat.toDigits 10 x.natAbs else Nat.toDigits 10 x.natAbs)
  else if 0 ≤ x then withPoint (ds.take (x.toNat + 1)) (ds.drop (x.toNat + 1))
  else withPoint ['0'] (List.replicate (x.natAbs - 1) '0' ++ ds)

/-- The inserter `os << x` for a `double`: six significant digits, fixed or scientific
as `%g` chooses. -/
def formatDouble (q : ℚ) : List Char :=
  if q = 0 then ['0']
  else if q < 0 then '-' :: formatG q.num.natAbs q.den
  else formatG q.num.natAbs q.den

/-! ### The persistence codec of `Customer` -/

/-- The friend `operator<<(ofstream&, const Customer&)`: the characters it writes. -/
def Customer.encode (c : Customer) : List Char :=
  c.customerID.data ++ ',' :: c.name.data ++ ',' :: (toString c.age).data ++ ',' ::
    c.contact.data ++ ',' :: formatDouble c.balance ++ ',' :: c.password.data ++ ['\n']

/-- The friend `operator>>(istream&, Customer&)`: six chained extractions into the
members of `c`. -/
def Customer.decode (ifs : IStream) (c : Customer) : IStream × Customer :=
  let r1 := ifs.extractString c.customerID
  let r2 := r1.1.extractString c.name
  let r3 := r2.1.extractInt c.age
  let r4 := r3.1.extractString c.contact
  let r5 := r4.1.extractDouble c.balance
  let r6 := r5.1.extractString c.password
  (r6.1, { c with customerID := r1.2, name := r2.2, age := r3.2, contact := r4.2,
                  balance := r5.2, password := r6.2 })

/-! ### `class Bank` -/

/-- The loop of `std::remove_if` after its `find_if` found the first match. `kept` is
the range before `result`, already final; `h :: hs` is the range from `result` up to
`first`, records that match or were moved from; the last argument is the range still to
visit. A record that does not match is move-assigned to `*result` and leaves `mv` of
itself behind. -/
def removeIfLoop {α : Type} (mv : α → α) (pred : α → Bool) :
    List α → α → List α → List α → List α × List α
  | kept, h, hs, [] => (kept, h :: hs)
  | kept, h, hs, x :: rest =>
    if pred x then removeIfLoop mv pred kept h (hs ++ [x]) rest
    else
      match hs with
      | [] => removeIfLoop mv pred (kept ++ [x]) (mv x) [] rest
      | h2 :: hs2 => removeIfLoop mv pred (kept ++ [x]) h2 (hs2 ++ [mv x]) rest

/-- The algorithm `std::remove_if(first, last, pred)` on a vector: the contents of the
vector afterwards and the position of the returned iterator. `mv x` is the state a
record `x` is left in once it has been moved from, which the language leaves open. -/
def remove_if {α : Type} (mv : α → α) (pred : α → Bool) (l : List α) : List α × Nat :=
  match l.dropWhile (fun x => !pred x) with
  | [] => (l, l.length)
  | x :: rest =>
    let r := removeIfLoop mv pred (l.takeWhile (fun x => !pred x)) x [] rest
    (r.1 ++ r.2, r.1.length)

/-- What one menu action reports. -/
inductive Output where
  | added (id : String)      -- "Customer added. ID: " followed by the id
  | threw (e : BankError)    -- the message of a caught exception
  | successful               -- "Deposit successful!" or "Withdrawal successful!"
  | invalidLogin             -- "Invalid ID or password!"
  | removed                  -- "Customer removed."
  | notFound                 -- "Customer not found!"
deriving DecidableEq, Repr

/-- The state of the ledger: the static `Customer::idCounter` and the vector
`Bank::customers`. -/
structure Bank where
  idCounter : Int
  customers : List Customer
deriving DecidableEq, Repr

/-- The loop `while (ifs >> temp) customers.push_back(temp);`, with one unit of fuel
for each run of the loop condition. -/
def loadLoop : Nat → IStream → Customer → List Customer → List Customer
  | 0, _, _, customers => customers
  | fuel + 1, ifs, temp, customers =>
    let r := Customer.decode ifs temp
    if r.1.failbit then customers
    else loadLoop fuel r.1 r.2 (customers ++ [r.2])

/-- The loop `while (ifs >> temp) customers.push_back(temp);` with fuel for every
character of the input: a run of the loop that goes on has consumed one at least. -/
def loadWhile (ifs : IStream) (temp : Customer) (customers : List Customer) :
    List Customer :=
  loadLoop (ifs.buf.length + 1) ifs temp customers

/-- The member `Bank::loadFromFile()`, run at clock `now` on the content of
`customers.txt` (`none` when the file does not exist). The scratch record `temp` is built
by the constructor of `Customer`, which advances the static counter. -/
def Bank.loadFromFile (file : Option (List Char)) (now : Int) (b : Bank) : Bank :=
  let temp := Customer.construct b.idCounter now "" 0 "" "" 0
  { idCounter := temp.2,
    customers := loadWhile (IStream.open file) temp.1 b.customers }

/-- The program start: `int Customer::idCounter = 0;`, then in `main` the constructor
`Bank::Bank(Manager*)`, which calls `loadFromFile()`. -/
def Bank.start (file : Option (List Char)) (now : Int) : Bank :=
  Bank.loadFromFile file now { idCounter := 0, customers := [] }

/-- The member `Bank::saveToFile()`: the content of `customers.txt` afterwards. The file
is opened with `ios::app`, so every record is written after what the file held. -/
def Bank.saveToFile (file : Option (List Char)) (b : Bank) : List Char :=
  b.customers.foldl (fun out c => out ++ c.encode) (file.getD [])

/-- The member `Bank::addCustomer()` on the values read from the console, at clock
`now`. -/
def Bank.addCustomer (now : Int) (name : String) (age : Int) (contact password : String)
    (deposit : ℚ) (b : Bank) : Bank × Output :=
  if age < 18 then (b, Output.threw BankError.underage)
  else if deposit < 500 then (b, Output.threw BankError.minimumDeposit)
  else
    let r := Customer.construct b.idCounter now name age contact password deposit
    ({ idCounter := r.2, customers := b.customers ++ [r.1] },
     Output.added r.1.getCustomerID)

/-- The loop of `Bank::processTransaction(isDeposit)` over the vector: the first record
with the given id and password receives the call, and the function returns. -/
def processLoop (tm_yday : Int → Int) (now : Int) (isDeposit : Bool)
    (customerID password : String) (amount : ℚ) : List Customer → List Customer × Output
  | [] => ([], Output.invalidLogin)
  | c :: cs =>
    if c.getCustomerID = customerID ∧ c.verifyPassword password = true then
      let r := if isDeposit then c.deposit amount else c.withdraw tm_yday now amount
      (r.1 :: cs, match r.2 with
                  | some e => Output.threw e
                  | none => Output.successful)
    else
      let r := processLoop tm_yday now isDeposit customerID password amount cs
      (c :: r.1, r.2)

/-- The member `Bank::processTransaction(isDeposit)` on the values read from the
console, at clock `now`. -/
def Bank.processTransaction (tm_yday : Int → Int) (now : Int) (isDeposit : Bool)
    (customerID password : String) (amount : ℚ) (b : Bank) : Bank × Output :=
  let r := processLoop tm_yday now isDeposit customerID password amount b.customers
  ({ b with customers := r.1 }, r.2)

/-- The member `Bank::removeCustomer()` on the id read from the console:
`remove_if` over the vector, then `customers.erase(it)`, which erases the one record at
`it`. -/
def Bank.removeCustomer (mv : Customer → Customer) (customerID : String) (b : Bank) :
    Bank × Output :=
  let r := remove_if mv (fun c => c.getCustomerID == customerID) b.customers
  if r.2 ≠ r.1.length then ({ b with customers := r.1.eraseIdx r.2 }, Output.removed)
  else ({ b with customers := r.1 }, Output.notFound)

/-- A menu action with the values it reads from the console and the clock. -/
inductive Op where
  | addCustomer (now : Int) (name : String) (age : Int) (contact password : String)
      (deposit : ℚ)
  | deposit (customerID password : String) (amount : ℚ)
  | withdraw (now : Int) (customerID password : String) (amount : ℚ)
  | removeCustomer (customerID : String)
deriving DecidableEq, Repr

/-- One turn of the menu loop of `main`. -/
def Bank.step (tm_yday : Int → Int) (mv : Customer → Customer) (b : Bank) :
    Op → Bank × Output
  | Op.addCustomer now name age contact password deposit =>
    b.addCustomer now name age contact password deposit
  | Op.deposit customerID password amount =>
    b.processTransaction tm_yday 0 true customerID password amount
  | Op.withdraw now customerID password amount =>
    b.processTransaction tm_yday now false customerID password amount
  | Op.removeCustomer customerID => b.removeCustomer mv customerID

/-- The menu loop over a sequence of actions: the final state and what each reported. -/
def Bank.run (tm_yday : Int → Int) (mv : Customer → Customer) :
    Bank → List Op → Bank × List Output
  | b, [] => (b, [])
  | b, op :: ops =>
    let r := b.step tm_yday mv op
    let rs := Bank.run tm_yday mv r.1 ops
    (rs.1, r.2 :: rs.2)

/-- The lines of a text: the runs of characters between line feeds, without a last
empty one. -/
def splitLines : List Char → List (List Char)
  | [] => []
  | ch :: rest =>
    match ch, splitLines rest with
    | '\n', ls => [] :: ls
    | _, [] => [[ch]]
    | _, l :: ls => (ch :: l) :: ls

/-- The load as the specification words it: every line of the file is decoded by
itself, a line that decodes gives a record, and a line that fails to decode is skipped. -/
def specLoadAll (temp : Customer) (content : List Char) : List Customer :=
  (splitLines content).filterMap (fun line =>
    if (Customer.decode { buf := line, failbit := false } temp).1.failbit then none
    else some (Customer.decode { buf := line, failbit := false } temp).2)

/-- A moved-from record as the common library implementations leave it: the strings
empty, the numbers kept. -/
def movedFrom (c : Customer) : Customer :=
  { c with name := "", contact := "", customerID := "", password := "" }

/-- A calendar for examples: days of 86400 seconds, years of 365 days. -/
def ydayUTC (t : Int) : Int := (t / 86400) % 365

/-! ### Data for the examples -/

/-- A record as the constructor leaves it, with balance 20000, created at time 0. -/
def sampleRecord : Customer :=
  (Customer.construct 1 0 "Asha" 25 "555" "pw" 20000).1

/-- The scratch record of `loadFromFile` in a fresh process started at time 0. -/
def scratchRecord : Customer :=
  (Customer.construct 0 0 "" 0 "" "" 0).1

/-- The record with id "2", name "Asha", age 25, contact "555", balance 1000 and
password "pw". -/
def sampleAsha : Customer :=
  { scratchRecord with
    customerID := "2", name := "Asha", age := 25, contact := "555", balance := 1000,
    password := "pw" }

/-- The record that the line `1 A 25 c 1000 p` decodes to. -/
def sampleDecoded : Customer :=
  { scratchRecord with
    customerID := "1", name := "A", age := 25, contact := "c", balance := 1000,
    password := "p" }

/-- Two records with id "1" and one with id "2". -/
def sampleA : Customer := { sampleRecord with customerID := "1", name := "A" }

/-- The second record with id "1". -/
def sampleB : Customer := { sampleRecord with customerID := "1", name := "B" }

/-- The record with id "2". -/
def sampleC : Customer := { sampleRecord with customerID := "2", name := "C" }

/-- A persistence file with a line that cannot be decoded before a line that can. -/
def fileBadThenGood : List Char := "bad\n1 A 25 c 1000 p\n".data

/-- A persistence file whose first two records have the id "1". -/
def fileDuplicateIds : List Char :=
  "1 A 25 555 20000 pw\n1 B 25 555 20000 pw\n2 C 25 555 20000 pw\n".data

/-- A persistence file with two records, a line that cannot be decoded, and one more
record. -/
def fileGoodBadGood : List Char :=
  "1 A 25 c 1000 p\n1 B 25 555 20000 pw\nbad\n2 C 25 555 20000 pw\n".data

/-- A persistence file holding one record, with id "2". -/
def fileWithId2 : List Char := "2 A 25 c 1000 p\n".data

end Banking

open Banking

/-! ### One call on a record -/

theorem withdraw_eq (tm_yday : Int → Int) (now : Int) (amount : ℚ) (c : Customer) :
    c.withdraw tm_yday now amount =
      if amount ≤ 0 ∨ amount > c.balance then (c, some BankError.invalidWithdrawal)
      else if (c.resetDailyLimit tm_yday now).dailyTransactionTotal + amount
          > (c.resetDailyLimit tm_yday now).dailyTransactionLimit then
        (c.resetDailyLimit tm_yday now, some BankError.limitExceeded)
      else
        ({ c.resetDailyLimit tm_yday now with
            balance := (c.resetDailyLimit tm_yday now).balance - amount,
            dailyTransactionTotal :=
              (c.resetDailyLimit tm_yday now).dailyTransactionTotal + amount }, none) := rfl

theorem resetDailyLimit_balance (tm_yday : Int → Int) (now : Int) (c : Customer) :
    (c.resetDailyLimit tm_yday now).balance = c.balance := by
  unfold Customer.resetDailyLimit; split <;> rfl

theorem deposit_balance_nonneg (amount : ℚ) (c : Customer) (h : 0 ≤ c.balance) :
    0 ≤ (c.deposit amount).1.balance := by
  unfold Customer.deposit
  split
  · exact h
  · rename_i h1
    have : 0 < amount := not_le.mp h1
    show 0 ≤ c.balance + amount
    linarith

theorem withdraw_balance_nonneg (tm_yday : Int → Int) (now : Int) (amount : ℚ)
    (c : Customer) (h : 0 ≤ c.balance) :
    0 ≤ (c.withdraw tm_yday now amount).1.balance := by
  have hb := resetDailyLimit_balance tm_yday now c
  rw [withdraw_eq]
  split
  · exact h
  · rename_i h1
    push_neg at h1
    split
    · rw [hb]; exact h
    · show 0 ≤ (c.resetDailyLimit tm_yday now).balance - amount
      rw [hb]
      linarith [h1.2]

theorem call_balance_nonneg (tm_yday : Int → Int) (c : Customer) (k : Call)
    (h : 0 ≤ c.balance) : 0 ≤ (c.call tm_yday k).balance := by
  cases k with
  | deposit amount => exact deposit_balance_nonneg amount c h
  | withdraw now amount => exact withdraw_balance_nonneg tm_yday now amount c h

theorem calls_balance_nonneg (tm_yday : Int → Int) (l : List Call) :
    ∀ c : Customer, 0 ≤ c.balance → 0 ≤ (c.calls tm_yday l).balance := by
  induction l with
  | nil => intro c h; exact h
  | cons k l ih =>
    intro c h
    exact ih (c.call tm_yday k) (call_balance_nonneg tm_yday c k h)

/-! ### Sequences of withdrawals within one day -/

theorem withdrawals_append (tm_yday : Int → Int) (c : Customer) (l1 l2 : List (Int × ℚ)) :
    c.withdrawals tm_yday (l1 ++ l2)
      = (c.withdrawals tm_yday l1).withdrawals tm_yday l2 := by
  simp [Customer.withdrawals, List.foldl_append]

theorem length_dropWhile_le {α : Type} (p : α → Bool) (l : List α) :
    (l.dropWhile p).length ≤ l.length :=
  (List.dropWhile_suffix p).length_le

theorem readSign_length (b : List Char) : (readSign b).2.length ≤ b.length := by
  unfold readSign
  split <;> simp

theorem readFraction_length (b : List Char) : (readFraction b).2.length ≤ b.length := by
  unfold readFraction
  split
  · rename_i t
    have := length_dropWhile_le Char.isDigit t
    simp only [List.length_cons]
    omega
  · exact le_refl _

theorem readExponent_length (b : List Char) (ex : Option Int) (rest : List Char)
    (h : readExponent b = some (ex, rest)) : rest.length ≤ b.length := by
  unfold readExponent at h
  split at h
  · rename_i t
    dsimp only at h
    have h1 := length_dropWhile_le Char.isDigit (readSign t).2
    have h2 := readSign_length t
    split_ifs at h <;>
      (simp only [Option.some.injEq, Prod.mk.injEq] at h
       rw [← h.2]
       simp only [List.length_cons]
       omega)
  · rename_i t
    dsimp only at h
    have h1 := length_dropWhile_le Char.isDigit (readSign t).2
    have h2 := readSign_length t
    split_ifs at h <;>
      (simp only [Option.some.injEq, Prod.mk.injEq] at h
       rw [← h.2]
       simp only [List.length_cons]
       omega)
  · simp only [Option.some.injEq, Prod.mk.injEq] at h
    rw [← h.2]

theorem extractString_failed (s : IStream) (old : String) (h : s.failbit = true) :
    (s.extractString old).1.failbit = true := by
  simp [IStream.extractString, h]

theorem extractInt_failed (s : IStream) (old : Int) (h : s.failbit = true) :
    (s.extractInt old).1.failbit = true := by
  simp [IStream.extractInt, h]

theorem extractDouble_failed (s : IStream) (old : ℚ) (h : s.failbit = true) :
    (s.extractDouble old).1.failbit = true := by
  simp [IStream.extractDouble, h]

theorem extractString_length (s : IStream) (old : String) :
    (s.extractString old).1.buf.length ≤ s.buf.length := by
  have h1 := length_dropWhile_le isspace s.buf
  have h2 := length_dropWhile_le (fun ch => !isspace ch) (s.buf.dropWhile isspace)
  unfold IStream.extractString
  dsimp only
  split_ifs <;> simp only [List.length_nil] <;> omega

theorem extractString_progress (s : IStream) (old : String)
    (h : (s.extractString old).1.failbit = false) :
    (s.extractString old).1.buf.length < s.buf.length := by
  unfold IStream.extractString at h ⊢
  dsimp only at h ⊢
  split_ifs at h ⊢ with hf hb
  · simp [hf] at h
  · have h1 := length_dropWhile_le isspace s.buf
    cases hd : s.buf.dropWhile isspace with
    | nil => exact absurd hd hb
    | cons x t =>
      have hx : isspace x = false := by
        have := List.head_dropWhile_not isspace s.buf (by rw [hd]; simp)
        simpa [hd] using this
      have h2 := length_dropWhile_le (fun ch => !isspace ch) t
      rw [hd] at h1
      simp only [List.dropWhile_cons, hx, Bool.not_false, if_true]
      simp only [List.length_cons] at h1
      omega

theorem extractInt_length (s : IStream) (old : Int) :
    (s.extractInt old).1.buf.length ≤ s.buf.length := by
  have h1 := length_dropWhile_le isspace s.buf
  have h2 := readSign_length (s.buf.dropWhile isspace)
  have h3 := length_dropWhile_le Char.isDigit (readSign (s.buf.dropWhile isspace)).2
  unfold IStream.extractInt
  dsimp only
  split_ifs <;> simp only [List.length_nil] <;> omega

theorem extractDouble_length (s : IStream) (old : ℚ) :
    (s.extractDouble old).1.buf.length ≤ s.buf.length := by
  have h1 := length_dropWhile_le isspace s.buf
  have h2 := readSign_length (s.buf.dropWhile isspace)
  have h3 := length_dropWhile_le Char.isDigit (readSign (s.buf.dropWhile isspace)).2
  have h4 := readFraction_length
    ((readSign (s.buf.dropWhile isspace)).2.dropWhile Char.isDigit)
  unfold IStream.extractDouble
  dsimp only
  cases he : readExponent
      (readFraction ((readSign (s.buf.dropWhile isspace)).2.dropWhile Char.isDigit)).2 with
  | none =>
    dsimp only
    split_ifs <;> simp only [List.length_nil] <;> omega
  | some p =>
    have h5 := readExponent_length _ p.1 p.2 he
    dsimp only
    split_ifs <;> simp only [List.length_nil] <;> omega

theorem decode_failed (ifs : IStream) (temp : Customer) (h : ifs.failbit = true) :
    (Customer.decode ifs temp).1.failbit = true := by
  unfold Customer.decode
  simp only
  apply extractString_failed
  apply extractDouble_failed
  apply extractString_failed
  apply extractInt_failed
  apply extractString_failed
  apply extractString_failed
  exact h

theorem decode_progress (ifs : IStream) (temp : Customer)
    (h : (Customer.decode ifs temp).1.failbit = false) :
    (Customer.decode ifs temp).1.buf.length < ifs.buf.length := by
  have h1 : (ifs.extractString temp.customerID).1.failbit = false := by
    by_contra hc
    have hc := Bool.eq_true_of_not_eq_false hc
    have : (Customer.decode ifs temp).1.failbit = true := by
      unfold Customer.decode
      simp only
      apply extractString_failed
      apply extractDouble_failed
      apply extractString_failed
      apply extractInt_failed
      apply extractString_failed
      exact hc
    rw [this] at h
    exact absurd h (by simp)
  have p1 := extractString_progress ifs temp.customerID h1
  have p2 := extractString_length (ifs.extractString temp.customerID).1 temp.name
  have p3 := extractInt_length
    ((ifs.extractString temp.customerID).1.extractString temp.name).1 temp.age
  have p4 := extractString_length
    (((ifs.extractString temp.customerID).1.extractString temp.name).1.extractInt
      temp.age).1 temp.contact
  have p5 := extractDouble_length
    ((((ifs.extractString temp.customerID).1.extractString temp.name).1.extractInt
      temp.age).1.extractString temp.contact).1 temp.balance
  have p6 := extractString_length
    (((((ifs.extractString temp.customerID).1.extractString temp.name).1.extractInt
      temp.age).1.extractString temp.contact).1.extractDouble temp.balance).1 temp.password
  unfold Customer.decode
  simp only
  omega

theorem loadLoop_fuel (fuel : Nat) :
    ∀ (ifs : IStream) (temp : Customer) (customers : List Customer),
      ifs.buf.length < fuel →
      loadLoop fuel ifs temp customers = loadWhile ifs temp customers := by
  induction fuel using Nat.strong_induction_on with
  | _ fuel ih =>
    intro ifs temp customers hlt
    cases fuel with
    | zero => omega
    | succ n =>
      unfold loadWhile
      simp only [loadLoop]
      by_cases hf : (Customer.decode ifs temp).1.failbit = true
      · simp [hf]
      · have hf2 : (Customer.decode ifs temp).1.failbit = false := by
          simpa using hf
        have hp := decode_progress ifs temp hf2
        simp only [hf2, Bool.false_eq_true, if_false]
        rw [ih n (Nat.lt_succ_self n) _ _ _ (by omega)]
        rw [ih ifs.buf.length (by omega) _ _ _ hp]

theorem loadWhile_eq (ifs : IStream) (temp : Customer) (customers : List Customer) :
    loadWhile ifs temp customers =
      if (Customer.decode ifs temp).1.failbit = true then customers
      else loadWhile (Customer.decode ifs temp).1 (Customer.decode ifs temp).2
        (customers ++ [(Customer.decode ifs temp).2]) := by
  conv_lhs => unfold loadWhile
  simp only [loadLoop]
  by_cases hf : (Customer.decode ifs temp).1.failbit = true
  · simp [hf]
  · have hf2 : (Customer.decode ifs temp).1.failbit = false := by
      simpa using hf
    simp only [hf2, Bool.false_eq_true, if_false]
    exact loadLoop_fuel _ _ _ _ (decode_progress ifs temp hf2)

theorem loadWhile_extends (n : Nat) :
    ∀ (ifs : IStream) (temp : Customer) (customers : List Customer),
      ifs.buf.length < n → ∃ loaded, loadWhile ifs temp customers = customers ++ loaded := by
  induction n with
  | zero => intro ifs _ _ h; omega
  | succ n ih =>
    intro ifs temp customers hlt
    rw [loadWhile_eq]
    by_cases hf : (Customer.decode ifs temp).1.failbit = true
    · exact ⟨[], by simp [hf]⟩
    · have hf2 : (Customer.decode ifs temp).1.failbit = false := by
        simpa using hf
      have hp := decode_progress ifs temp hf2
      simp only [hf2, Bool.false_eq_true, if_false]
      obtain ⟨t, ht⟩ := ih (Customer.decode ifs temp).1 (Customer.decode ifs temp).2
        (customers ++ [(Customer.decode ifs temp).2]) (by omega)
      exact ⟨(Customer.decode ifs temp).2 :: t, by rw [ht]; simp⟩

/-! ### Decimal ids and the static counter -/

theorem toString_nat_data (n : Nat) : (toString n).data = Nat.toDigits 10 n := rfl

theorem removeIfLoop_no_match {α : Type} (mv : α → α) (pred : α → Bool) (rest : List α) :
    ∀ (kept : List α) (h : α), (∀ x ∈ rest, pred x = false) →
      ∃ g, removeIfLoop mv pred kept h [] rest = (kept ++ rest, [g]) := by
  induction rest with
  | nil => intro kept h _; exact ⟨h, by simp [removeIfLoop]⟩
  | cons x rest ih =>
    intro kept h hall
    have hx : pred x = false := hall x (List.mem_cons_self x rest)
    obtain ⟨g, hg⟩ := ih (kept ++ [x]) (mv x)
      (fun y hy => hall y (List.mem_cons_of_mem x hy))
    refine ⟨g, ?_⟩
    simp only [removeIfLoop, hx, Bool.false_eq_true, if_false, hg, List.append_assoc,
      List.singleton_append]

theorem remove_if_no_match {α : Type} (mv : α → α) (pred : α → Bool) (l : List α)
    (h : ∀ x ∈ l, pred x = false) : remove_if mv pred l = (l, l.length) := by
  have hd : l.dropWhile (fun x => !pred x) = [] := by
    rw [List.dropWhile_eq_nil_iff]
    intro x hx
    simp [h x hx]
  unfold remove_if
  rw [hd]

theorem remove_if_single_match {α : Type} (mv : α → α) (pred : α → Bool)
    (before after : List α) (x : α) (hb : ∀ y ∈ before, pred y = false)
    (hx : pred x = true) (ha : ∀ y ∈ after, pred y = false) :
    ∃ g, remove_if mv pred (before ++ x :: after)
      = (before ++ after ++ [g], (before ++ after).length) := by
  have hb2 : ∀ y ∈ before, (fun z => !pred z) y = true := by
    intro y hy
    simp [hb y hy]
  have hd : (before ++ x :: after).dropWhile (fun z => !pred z) = x :: after := by
    rw [List.dropWhile_append_of_pos hb2]
    simp [List.dropWhile_cons, hx]
  have ht : (before ++ x :: after).takeWhile (fun z => !pred z) = before := by
    rw [List.takeWhile_append_of_pos hb2]
    simp [List.takeWhile_cons, hx]
  obtain ⟨g, hg⟩ := removeIfLoop_no_match mv pred after before x ha
  refine ⟨g, ?_⟩
  unfold remove_if
  rw [hd]
  simp only [ht, hg]

/-- When exactly one record has the id, `removeCustomer` deletes it and keeps the others
as they were and in their order. -/
theorem removeCustomer_single_match (mv : Customer → Customer) (customerID : String)
    (idCounter : Int) (before after : List Customer) (x : Customer)
    (hb : ∀ y ∈ before, y.customerID ≠ customerID) (hx : x.customerID = customerID)
    (ha : ∀ y ∈ after, y.customerID ≠ customerID) :
    Bank.removeCustomer mv customerID
        { idCounter := idCounter, customers := before ++ x :: after }
      = ({ idCounter := idCounter, customers := before ++ after }, Output.removed) := by
  obtain ⟨g, hg⟩ := remove_if_single_match mv
    (fun c : Customer => c.getCustomerID == customerID) before after x
    (fun y hy => by simpa [Customer.getCustomerID] using hb y hy)
    (by simpa [Customer.getCustomerID] using hx)
    (fun y hy => by simpa [Customer.getCustomerID] using ha y hy)
  unfold Bank.removeCustomer
  simp only [hg]
  have hne : (before ++ after).length ≠ (before ++ after ++ [g]).length := by
    simp
  rw [if_pos hne]
  congr 2
  rw [List.eraseIdx_append_of_length_le (le_refl _)]
  simp

/-- When no record has the id, `removeCustomer` changes nothing and reports that the
customer was not found. -/
theorem removeCustomer_no_match (mv : Customer → Customer) (customerID : String) (b : Bank)
    (h : ∀ y ∈ b.customers, y.customerID ≠ customerID) :
    b.removeCustomer mv customerID = (b, Output.notFound) := by
  have hr := remove_if_no_match mv (fun c : Customer => c.getCustomerID == customerID)
    b.customers (fun y hy => by simpa [Customer.getCustomerID] using h y hy)
  unfold Bank.removeCustomer
  simp only [hr, ne_eq, not_true_eq_false, if_false]

/-! ### The encoded line read back -/

/-- Whatever the record, provided its id is not empty and has no white space: reading its
encoded line back does not restore the id, because the reader takes the comma and what
follows it as part of the id. -/
theorem decode_encode_customerID (temp c : Customer) (h1 : c.customerID.data ≠ [])
    (h2 : ∀ ch ∈ c.customerID.data, isspace ch = false) :
    (Customer.decode { buf := c.encode, failbit := false } temp).2.customerID
      ≠ c.customerID := by
  obtain ⟨rest, hrest⟩ : ∃ rest, c.encode = c.customerID.data ++ ',' :: rest :=
    ⟨c.name.data ++ ',' :: ((toString c.age).data ++ ',' :: (c.contact.data ++ ',' ::
      (formatDouble c.balance ++ ',' :: (c.password.data ++ ['\n'])))),
     by simp [Customer.encode]⟩
  have hskip : c.encode.dropWhile isspace = c.encode := by
    rw [hrest]
    cases hd : c.customerID.data with
    | nil => exact absurd hd h1
    | cons x t =>
      have hx : isspace x = false := h2 x (by rw [hd]; exact List.mem_cons_self x t)
      simp [List.dropWhile_cons, hx]
  have hne : c.encode ≠ [] := by rw [hrest]; simp
  have htok : c.encode.takeWhile (fun ch => !isspace ch)
      = c.customerID.data ++ ',' :: rest.takeWhile (fun ch => !isspace ch) := by
    rw [hrest, List.takeWhile_append_of_pos (fun ch hch => by simp [h2 ch hch])]
    have : isspace ',' = false := by decide
    simp [List.takeWhile_cons, this]
  have hid : (Customer.decode { buf := c.encode, failbit := false } temp).2.customerID
      = String.mk (c.customerID.data ++ ',' :: rest.takeWhile (fun ch => !isspace ch)) := by
    unfold Customer.decode
    simp only [IStream.extractString, Bool.false_eq_true, if_false, hskip, hne, htok]
  rw [hid]
  intro heq
  have hdata := congrArg String.data heq
  have hlen := congrArg List.length hdata
  simp only [List.length_append, List.length_cons] at hlen
  omega

/-! ### The claims about one customer record -/

/-- C5: a record whose balance is not negative keeps a balance that is not negative
through every sequence of `deposit` and `withdraw` calls, whatever the amounts and the
days and whether the calls return or throw; and the record `addCustomer` creates starts
with a balance of at least 500. -/
theorem C5_balance_nonnegative (tm_yday : Int → Int) (c : Customer) (l : List Call)
    (h : 0 ≤ c.balance) :
    (∀ done rest, l = done ++ rest → 0 ≤ (c.calls tm_yday done).balance) ∧
    (∀ (b : Bank) (now : Int) (name : String) (age : Int) (contact password : String)
        (deposit : ℚ) (id : String),
      (b.addCustomer now name age contact password deposit).2 = Output.added id →
      ∃ r : Customer,
        (b.addCustomer now name age contact password deposit).1.customers
          = b.customers ++ [r] ∧
        500 ≤ r.balance ∧ 0 ≤ (r.calls tm_yday l).balance) := by
  constructor
  · intro done _ _
    exact calls_balance_nonneg tm_yday done c h
  · intro b now name age contact password deposit id hid
    unfold Bank.addCustomer at hid ⊢
    by_cases h1 : age < 18
    · simp [h1] at hid
    · by_cases h2 : deposit < 500
      · simp [h1, h2] at hid
      · simp only [h1, h2, if_false]
        refine ⟨_, rfl, ?_, ?_⟩
        · exact not_lt.mp h2
        · apply calls_balance_nonneg
          have : (500 : ℚ) ≤ deposit := not_lt.mp h2
          show (0 : ℚ) ≤ deposit
          linarith

/-- C5 at a record with balance 20000 and calls that succeed and calls that throw. -/
theorem C5_balance_nonnegative_witness :
    0 ≤ (sampleRecord.calls ydayUTC
      [Call.withdraw 10 4000, Call.withdraw 20 50000, Call.deposit (-5),
       Call.withdraw 90000 5000, Call.deposit 7, Call.withdraw 90001 (-3)]).balance :=
  (C5_balance_nonnegative ydayUTC sampleRecord
    [Call.withdraw 10 4000, Call.withdraw 20 50000, Call.deposit (-5),
     Call.withdraw 90000 5000, Call.deposit 7, Call.withdraw 90001 (-3)]
    (by decide!)).1 _ [] (by simp)

/-! ### The claims about the codec and the ledger -/

/-- C1, at the failing input: the record with id "2", name "Asha", age 25, contact
"555", balance 1000, password "pw" is encoded as the line `2,Asha,25,555,1000,pw`;
decoding that line reads the whole line as the id, finds the end of the input where the
name should start, and fails: the id is not the one encoded, and name, age, contact,
balance and password keep the values of the scratch record. -/
theorem C1_round_trip_fails :
    sampleAsha.encode = "2,Asha,25,555,1000,pw\n".data ∧
    Customer.decode { buf := sampleAsha.encode, failbit := false } scratchRecord
      = ({ buf := [], failbit := true },
         { scratchRecord with customerID := "2,Asha,25,555,1000,pw" }) := by
  decide!

/-- C7, at the failing input: in a process started without a persistence file, or with
an empty one, the first `addCustomer` (age 25, deposit 1000) reports id "2", not "1":
the scratch record of `loadFromFile` has taken 1. The rest of the scenario holds for
that customer: withdrawing 600 succeeds and leaves balance 400 and daily total 600, and
withdrawing 500 then fails with the invalid-amount error, the balance still 400. -/
theorem C7_first_id_is_two :
    ((Bank.start none 0).addCustomer 0 "Asha" 25 "555" "pw" 1000).2 = Output.added "2" ∧
    ((Bank.start (some []) 0).addCustomer 0 "Asha" 25 "555" "pw" 1000).2
      = Output.added "2" ∧
    (Bank.run ydayUTC movedFrom (Bank.start none 0)
        [Op.addCustomer 0 "Asha" 25 "555" "pw" 1000, Op.withdraw 10 "2" "pw" 600]).2
      = [Output.added "2", Output.successful] ∧
    (Bank.run ydayUTC movedFrom (Bank.start none 0)
        [Op.addCustomer 0 "Asha" 25 "555" "pw" 1000, Op.withdraw 10 "2" "pw" 600]
      ).1.customers.map (fun c => (c.balance, c.dailyTransactionTotal)) = [(400, 600)] ∧
    (Bank.run ydayUTC movedFrom (Bank.start none 0)
        [Op.addCustomer 0 "Asha" 25 "555" "pw" 1000, Op.withdraw 10 "2" "pw" 600,
         Op.withdraw 20 "2" "pw" 500]).2
      = [Output.added "2", Output.successful, Output.threw BankError.invalidWithdrawal] ∧
    (Bank.run ydayUTC movedFrom (Bank.start none 0)
        [Op.addCustomer 0 "Asha" 25 "555" "pw" 1000, Op.withdraw 10 "2" "pw" 600,
         Op.withdraw 20 "2" "pw" 500]
      ).1.customers.map (fun c => (c.balance, c.dailyTransactionTotal)) = [(400, 600)] := by
  decide!

/-- C8, at the failing input: a file whose first two records have the id "1" is loaded
as the list A, B, C, where A and B have id "1" and C has id "2"; on that list
`removeCustomer` of "1" leaves C followed by the moved-from remains of C, whatever state
a moved-from record is in: B, the later record with the same id, is not kept, and the
result is not the list B, C. -/
theorem C8_remove_with_duplicate_ids (mv : Customer → Customer) :
    (Bank.start (some fileDuplicateIds) 0).customers = [sampleA, sampleB, sampleC] ∧
    (Bank.removeCustomer mv "1" (Bank.start (some fileDuplicateIds) 0)).2
      = Output.removed ∧
    (Bank.removeCustomer mv "1" (Bank.start (some fileDuplicateIds) 0)).1.customers
      = [sampleC, mv sampleC] ∧
    [sampleC, mv sampleC] ≠ [sampleB, sampleC] := by
  have hload : Bank.start (some fileDuplicateIds) 0
      = { idCounter := 1, customers := [sampleA, sampleB, sampleC] } := by decide!
  rw [hload]
  refine ⟨rfl, rfl, rfl, ?_⟩
  intro h
  have h1 : sampleC = sampleB := (List.cons.inj h).1
  exact absurd h1 (by decide!)

/-- C9 as stated fails: for the file with the line `bad` before the line
`1 A 25 c 1000 p`, decoding line by line and skipping the bad line gives the record of
the second line, but the program loads nothing. -/
theorem C9_counterexample :
    (Bank.start (some fileBadThenGood) 0).customers = [] ∧
    specLoadAll scratchRecord fileBadThenGood
      = [sampleDecoded] ∧
    (Bank.start (some fileBadThenGood) 0).customers
      ≠ specLoadAll scratchRecord fileBadThenGood := by
  decide!

/-- C9 as amended: the load appends to the customer list, in input order, the records
that `operator>>` decodes one after the other from the whitespace-separated fields, and
it ends at the first decoding that fails: what follows the failure is not read. A
missing file loads nothing. -/
theorem C9_load_stops_at_first_failure (ifs : IStream) (temp : Customer)
    (customers : List Customer) :
    (loadWhile ifs temp customers =
      if (Customer.decode ifs temp).1.failbit = true then customers
      else loadWhile (Customer.decode ifs temp).1 (Customer.decode ifs temp).2
        (customers ++ [(Customer.decode ifs temp).2])) ∧
    (∃ loaded, loadWhile ifs temp customers = customers ++ loaded) ∧
    loadWhile (IStream.open none) temp customers = customers ∧
    (∀ (file : Option (List Char)) (now : Int) (b : Bank),
      (b.loadFromFile file now).customers
        = loadWhile (IStream.open file) (Customer.construct b.idCounter now "" 0 "" "" 0).1
            b.customers) := by
  refine ⟨loadWhile_eq ifs temp customers,
    loadWhile_extends (ifs.buf.length + 1) ifs temp customers (Nat.lt_succ_self _), ?_, ?_⟩
  · rw [loadWhile_eq, decode_failed _ _ rfl]
    simp
  · intro file now b
    rfl

/-- C9 as amended, on a file with two records, a line `bad`, and one more record: the
two records before the failure are loaded, the one after it is not. -/
theorem C9_load_stops_at_first_failure_witness :
    loadWhile { buf := fileGoodBadGood, failbit := false } scratchRecord []
      = [sampleDecoded, sampleB] ∧
    (Bank.start (some fileGoodBadGood) 0).customers = [sampleDecoded, sampleB] :=
  ⟨by
    have h := (C9_load_stops_at_first_failure
      { buf := fileGoodBadGood, failbit := false } scratchRecord []).1
    rw [h]
    decide!,
   by decide!⟩

/-- C10, at the failing input: a process started on a persistence file that holds a
record with id "2" gives the first customer it adds the id "2" as well; and a file
that two earlier runs saved (each added the customer named `a b 30 c 500 d`, the second
after removing the record it had loaded) is loaded as two records with the id `2,a`. -/
theorem C10_duplicate_ids :
    ((Bank.start (some fileWithId2) 0).addCustomer 0 "B" 30 "d" "q" 1000
      ).1.customers.map Customer.getCustomerID = ["2", "2"] ∧
    Bank.saveToFile none
        ((Bank.start none 0).addCustomer 0 "a b 30 c 500 d" 25 "k" "p" 1000).1
      = "2,a b 30 c 500 d,25,k,1000,p\n".data ∧
    (Bank.start (some "2,a b 30 c 500 d,25,k,1000,p\n".data) 0).customers.map
        Customer.getCustomerID = ["2,a"] ∧
    Bank.saveToFile (some "2,a b 30 c 500 d,25,k,1000,p\n".data)
        (Bank.run ydayUTC movedFrom
          (Bank.start (some "2,a b 30 c 500 d,25,k,1000,p\n".data) 0)
          [Op.removeCustomer "2,a",
           Op.addCustomer 0 "a b 30 c 500 d" 25 "k" "p" 1000]).1
      = "2,a b 30 c 500 d,25,k,1000,p\n2,a b 30 c 500 d,25,k,1000,p\n".data ∧
    (Bank.start
        (some "2,a b 30 c 500 d,25,k,1000,p\n2,a b 30 c 500 d,25,k,1000,p\n".data) 0
      ).customers.map Customer.getCustomerID = ["2,a", "2,a"] := by
  decide!

